import Mathlib

/-!
Verification development for the RepoAnalyzer repository
(src/repo_skill_scanner.py and src/report_generator.py).

The Python program is shallowly embedded: dictionaries become association
lists (insertion-ordered, as Python dicts are), Python sets become
duplicate-free lists built by insert-if-absent, and the regular expressions
of the signal extractors are run by a small backtracking matcher that follows
Python re semantics (leftmost, greedy, non-overlapping findall) for the
linear patterns the program uses.  The file system is abstracted as the list
of files that os.walk yields after the version-control directory exclusion:
each file carries its relative path and an optional content (none models an
unreadable file, which safe_read turns into empty content).
-/

/-- Python set.add: append the element if it is not already present. -/
def insertStr (s : List String) (x : String) : List String :=
  if s.contains x then s else s ++ [x]

/-- Python set(...) of a list: keep the first occurrence of each element. -/
def dedupStr (l : List String) : List String :=
  l.foldl insertStr []

/-- Python dict.setdefault(k, []).append(p) on a path-provenance map. -/
def addPath (m : List (String × List String)) (k : String) (p : String) :
    List (String × List String) :=
  match m with
  | [] => [(k, [p])]
  | (k', ps) :: rest =>
      if k' = k then (k', ps ++ [p]) :: rest else (k', ps) :: addPath rest k p

/-- Python dict.get(k, []): value of the first entry with key k, else []. -/
def lookupD (m : List (String × List String)) (k : String) : List String :=
  match m with
  | [] => []
  | (k', v) :: rest => if k' = k then v else lookupD rest k

/-- Whether an association list has an entry with the given key. -/
def hasKey (m : List (String × String × String)) (k : String) : Bool :=
  m.any (fun e => e.1 == k)

/-- Python dict.setdefault(cat, set()).add(lab) on a category-to-label-set map. -/
def tierAdd (m : List (String × List String)) (cat lab : String) :
    List (String × List String) :=
  match m with
  | [] => [(cat, [lab])]
  | (c, ls) :: rest =>
      if c = cat then (c, insertStr ls lab) :: rest else (c, ls) :: tierAdd rest cat lab

/-- Python dict.setdefault(t, lc): insert the binding only when t is absent. -/
def insertIfAbsent (m : List (String × String × String)) (t : String)
    (lc : String × String) : List (String × String × String) :=
  if hasKey m t then m else m ++ [(t, lc.1, lc.2)]

/-- Code-point comparison of char lists, as Python compares strings. -/
def strLeAux : List Char → List Char → Bool
  | [], _ => true
  | _ :: _, [] => false
  | a :: as, b :: bs =>
      if a.toNat < b.toNat then true
      else if b.toNat < a.toNat then false
      else strLeAux as bs

/-- Python string comparison a <= b (lexicographic on code points). -/
def strLe (a b : String) : Bool :=
  strLeAux a.data b.data

/-- Insert into a list kept in nondecreasing string order. -/
def insertSorted (x : String) : List String → List String
  | [] => [x]
  | y :: ys => if strLe x y then x :: y :: ys else y :: insertSorted x ys

/-- Python sorted(...) on a list of strings. -/
def sortStrList (l : List String) : List String :=
  l.foldr insertSorted []

/-- Python sorted(set(...)) on a list of strings. -/
def sortedDedup (l : List String) : List String :=
  sortStrList (dedupStr l)

/-- Python str.replace on char lists (replaces all non-overlapping occurrences,
left to right; the empty pattern leaves the text unchanged).  The fuel is the
text length: every step consumes at least one character. -/
def replaceCharsAux (pat repl : List Char) : Nat → List Char → List Char
  | 0, cs => cs
  | _ + 1, [] => []
  | fuel + 1, c :: cs =>
      match pat with
      | [] => c :: cs
      | p :: ps =>
          if (p :: ps).isPrefixOf (c :: cs) then
            repl ++ replaceCharsAux pat repl fuel (cs.drop ps.length)
          else
            c :: replaceCharsAux pat repl fuel cs

/-- Python str.replace. -/
def replaceAll (s pat repl : String) : String :=
  String.mk (replaceCharsAux pat.data repl.data s.data.length s.data)

/-- Python str.lower, character by character (ASCII). -/
def strToLower (s : String) : String :=
  String.mk (s.data.map Char.toLower)

/-- Splitting on a one-character separator, as Python str.split("/") does:
the reversed first argument accumulates the current piece. -/
def splitOnCharAux (sep : Char) : List Char → List Char → List (List Char)
  | acc, [] => [acc.reverse]
  | acc, c :: cs =>
      if c == sep then acc.reverse :: splitOnCharAux sep [] cs
      else splitOnCharAux sep (c :: acc) cs

/-- Python s.split(sep) for a one-character separator. -/
def splitOnChar (sep : Char) (s : String) : List String :=
  (splitOnCharAux sep [] s.data).map String.mk

/-- Python str.rstrip("/"): drop trailing slashes. -/
def rstripSlash (s : String) : String :=
  String.mk ((s.data.reverse.dropWhile (fun c => c == '/')).reverse)

/-- repo_url.rstrip("/").split("/")[-1].replace(".git", "") from scan_repo. -/
def repoNameOf (url : String) : String :=
  replaceAll ((splitOnChar '/' (rstripSlash url)).getLastD "") ".git" ""

/-- The final path component of a relative path (the os.walk filename). -/
def fileName (rel : String) : String :=
  (splitOnChar '/' rel).getLastD ""

/-- pathlib Path(name).suffix: the substring from the last dot, provided the
dot is neither the first nor the last character; otherwise the empty string. -/
def pathSuffix (name : String) : String :=
  let cs := name.data
  match cs.reverse.findIdx? (fun c => c == '.') with
  | none => ""
  | some j =>
      let i := cs.length - 1 - j
      if 0 < i && i + 1 < cs.length then String.mk (cs.drop i) else ""

/-- Python substring test key in text, on char lists. -/
def isSubstrList (key : List Char) : List Char → Bool
  | [] => key.isEmpty
  | c :: cs => key.isPrefixOf (c :: cs) || isSubstrList key cs

/-- Python regex word character (ASCII): letter, digit or underscore. -/
def isWordChar (c : Char) : Bool :=
  c.isAlphanum || c == '_'

/-- A regex word boundary stands between two (optional) characters exactly
when one side is a word character and the other is not (text edges count as
non-word). -/
def boundaryOk (x y : Option Char) : Bool :=
  (match x with | some c => isWordChar c | none => false)
    != (match y with | some c => isWordChar c | none => false)

/-- One attempt of re.search for a word-bounded literal key at the current
position: the key must be a prefix here, with a word boundary against the
preceding character and against the character following the key. -/
def wbMatchAt (key : List Char) (prev : Option Char) (cs : List Char) : Bool :=
  key.isPrefixOf cs && boundaryOk prev key.head? && boundaryOk key.getLast? ((cs.drop key.length).head?)

/-- re.search of a word-bounded literal key: try every position, tracking the
preceding character. -/
def wbSearchAux (key : List Char) : Option Char → List Char → Bool
  | prev, [] => wbMatchAt key prev []
  | prev, c :: cs => wbMatchAt key prev (c :: cs) || wbSearchAux key (some c) cs

/-- keyword_present from repo_skill_scanner.py: keys of length at most 4 must
match as a whole word, longer keys by plain substring containment. -/
def keyword_present (key text : String) : Bool :=
  if key.length ≤ 4 then wbSearchAux key.data none text.data
  else isSubstrList key.data text.data

/-- safe_read from repo_skill_scanner.py: file contents are modelled as an
optional string, none standing for a read that raises; such a read yields
empty content instead of an error. -/
def safe_read (content : Option String) : String :=
  content.getD ""

/-- An element of the linear regular expressions used by the extractors:
a literal string, an alternation of two literals, a single character of a
class, a greedy plus / star of a class, or the (single) greedy capturing
group of a class with at least one character. -/
inductive RElem where
  | lit (s : String)
  | alt2 (s1 s2 : String)
  | one (cls : Char → Bool)
  | plus (cls : Char → Bool)
  | star (cls : Char → Bool)
  | grp (cls : Char → Bool)

/-- Try f n, f (n-1), ..., f lo in that order and return the first success
(backtracking order for a greedy quantifier). -/
def tryDescend (f : Nat → Option α) (lo : Nat) : Nat → Option α
  | 0 => if lo = 0 then f 0 else none
  | n + 1 => if n + 1 < lo then none
             else match f (n + 1) with
                  | some r => some r
                  | none => tryDescend f lo n

/-- Length of the maximal run of class characters at the head of the text. -/
def classRun (cls : Char → Bool) (cs : List Char) : Nat :=
  (cs.takeWhile cls).length

/-- Backtracking matcher for a sequence of RElems against the head of the
text: on success returns the capture (if the group was traversed) and the
remaining text.  Quantifiers try their longest extent first, and the
alternation tries its first branch first, exactly as Python re does. -/
def runElems : List RElem → List Char → Option (Option String × List Char)
  | [], cs => some (none, cs)
  | .lit s :: rest, cs =>
      if s.data.isPrefixOf cs then runElems rest (cs.drop s.data.length) else none
  | .alt2 s1 s2 :: rest, cs =>
      match (if s1.data.isPrefixOf cs then runElems rest (cs.drop s1.data.length) else none) with
      | some r => some r
      | none => if s2.data.isPrefixOf cs then runElems rest (cs.drop s2.data.length) else none
  | .one cls :: rest, cs =>
      match cs with
      | [] => none
      | c :: cs' => if cls c then runElems rest cs' else none
  | .plus cls :: rest, cs =>
      tryDescend (fun n => runElems rest (cs.drop n)) 1 (classRun cls cs)
  | .star cls :: rest, cs =>
      tryDescend (fun n => runElems rest (cs.drop n)) 0 (classRun cls cs)
  | .grp cls :: rest, cs =>
      tryDescend
        (fun n =>
          match runElems rest (cs.drop n) with
          | some (_, r) => some (some (String.mk (cs.take n)), r)
          | none => none)
        1 (classRun cls cs)

/-- re.findall scanning loop: try the pattern at each position (only at line
starts when the pattern is banked on a MULTILINE ^ anchor), collect the
capture of each match, and resume after the matched span (non-overlapping).
Fuel bounds the number of scanning steps by the text length. -/
def findAllAux (pat : List RElem) (anchored : Bool) :
    Nat → Bool → List Char → List String
  | 0, _, _ => []
  | _ + 1, atStart, [] =>
      if atStart || !anchored then
        match runElems pat [] with
        | some (some cap, _) => [cap]
        | _ => []
      else []
  | fuel + 1, atStart, c :: cs =>
      if atStart || !anchored then
        match runElems pat (c :: cs) with
        | some (capOpt, rest) =>
            let consumed := (c :: cs).length - rest.length
            if 0 < consumed then
              (match capOpt with | some cap => [cap] | none => []) ++
                findAllAux pat anchored fuel
                  (((c :: cs).take consumed).getLast? == some '\n') rest
            else
              (match capOpt with | some cap => [cap] | none => []) ++
                findAllAux pat anchored fuel (c == '\n') cs
        | none => findAllAux pat anchored fuel (c == '\n') cs
      else findAllAux pat anchored fuel (c == '\n') cs

/-- re.findall of a one-group pattern over a string (anchored = the pattern
begins with a MULTILINE ^). -/
def regexFindAll (pat : List RElem) (anchored : Bool) (s : String) : List String :=
  findAllAux pat anchored (s.data.length + 1) true s.data

/-- Python \s (ASCII): space, tab, newline, carriage return, vertical tab,
form feed. -/
def isPySpace (c : Char) : Bool :=
  c == ' ' || c == Char.ofNat 9 || c == Char.ofNat 10 || c == Char.ofNat 13
    || c == Char.ofNat 11 || c == Char.ofNat 12

/-- Python regex . without DOTALL: any character but newline. -/
def isDotChar (c : Char) : Bool :=
  c != Char.ofNat 10

/-- The character class [a-zA-Z0-9_.] of the import regexes. -/
def isPyTokChar (c : Char) : Bool :=
  c.isAlphanum || c == '_' || c == '.'

/-- The character class ['"] of the ECMAScript regexes. -/
def isQuoteChar (c : Char) : Bool :=
  c == Char.ofNat 39 || c == Char.ofNat 34

/-- The character class [^'"] of the ECMAScript regexes. -/
def notQuoteChar (c : Char) : Bool :=
  !(isQuoteChar c)

/-- The opening bracket class [<"] of the include regex. -/
def isOpenInc (c : Char) : Bool :=
  c == '<' || c == Char.ofNat 34

/-- The name class [^>"] of the include regex. -/
def isIncNameChar (c : Char) : Bool :=
  c != '>' && c != Char.ofNat 34

/-- The closing bracket class [>"] of the include regex. -/
def isCloseInc (c : Char) : Bool :=
  c == '>' || c == Char.ofNat 34

/-- IMPORT_RE_PY from repo_skill_scanner.py (MULTILINE anchored). -/
def IMPORT_RE_PY : List RElem :=
  [.star isPySpace, .alt2 "import" "from", .plus isPySpace, .grp isPyTokChar]

/-- IMPORT_RE_JAVA from repo_skill_scanner.py (MULTILINE anchored). -/
def IMPORT_RE_JAVA : List RElem :=
  [.star isPySpace, .lit "import", .plus isPySpace, .grp isPyTokChar, .lit ";"]

/-- INCLUDE_RE_C from repo_skill_scanner.py (MULTILINE anchored). -/
def INCLUDE_RE_C : List RElem :=
  [.star isPySpace, .lit "#", .star isPySpace, .lit "include", .star isPySpace,
   .one isOpenInc, .grp isIncNameChar, .one isCloseInc]

/-- The static-import regex of extract_imports_from_js (unanchored). -/
def JS_IMPORT_RE : List RElem :=
  [.lit "import", .plus isPySpace, .star isDotChar, .plus isPySpace,
   .lit "from", .plus isPySpace, .one isQuoteChar, .grp notQuoteChar, .one isQuoteChar]

/-- The require(...) regex of extract_imports_from_js (unanchored). -/
def JS_REQUIRE_RE : List RElem :=
  [.lit "require(", .one isQuoteChar, .grp notQuoteChar, .one isQuoteChar, .lit ")"]

/-- PACKAGE_KEYWORD_MAP from repo_skill_scanner.py: token, label, category
(in source insertion order, which Python dict iteration follows). -/
def PACKAGE_KEYWORD_MAP : List (String × String × String) :=
  [("boto3", "AWS (boto3)", "Cloud"),
   ("aws", "AWS", "Cloud"),
   ("aws-sdk", "AWS SDK (Node.js)", "Cloud"),
   ("azure", "Azure", "Cloud"),
   ("google-cloud", "Google Cloud", "Cloud"),
   ("pulumi", "Pulumi", "Cloud / IaC"),
   ("terraform", "Terraform", "Cloud / IaC"),
   ("kubernetes", "Kubernetes", "Containers / Orchestration"),
   ("helm", "Helm", "Containers / Orchestration"),
   ("flask", "Flask", "Web & APIs"),
   ("fastapi", "FastAPI", "Web & APIs"),
   ("django", "Django", "Web & APIs"),
   ("express", "Express.js", "Web & APIs"),
   ("nestjs", "NestJS", "Web & APIs"),
   ("spring", "Spring Framework", "Web & APIs"),
   ("springboot", "Spring Boot", "Web & APIs"),
   ("grpc", "gRPC", "Web & APIs"),
   ("react", "React", "Frontend"),
   ("react-dom", "React", "Frontend"),
   ("next", "Next.js", "Frontend"),
   ("vue", "Vue.js", "Frontend"),
   ("angular", "Angular", "Frontend"),
   ("svelte", "Svelte", "Frontend"),
   ("axios", "axios (HTTP client)", "Frontend"),
   ("redux", "Redux", "Frontend"),
   ("tailwind", "Tailwind CSS", "Frontend"),
   ("bootstrap", "Bootstrap", "Frontend"),
   ("numpy", "NumPy", "Data & Analysis"),
   ("pandas", "Pandas", "Data & Analysis"),
   ("scipy", "SciPy", "Data & Analysis"),
   ("sklearn", "scikit-learn", "ML/AI"),
   ("xgboost", "XGBoost", "ML/AI"),
   ("lightgbm", "LightGBM", "ML/AI"),
   ("tensorflow", "TensorFlow", "ML/AI"),
   ("torch", "PyTorch", "ML/AI"),
   ("keras", "Keras", "ML/AI"),
   ("opencv", "OpenCV", "Computer Vision"),
   ("transformers", "Hugging Face Transformers", "ML/AI"),
   ("sqlalchemy", "SQLAlchemy", "Databases"),
   ("psycopg2", "PostgreSQL", "Databases"),
   ("mysql", "MySQL", "Databases"),
   ("pymongo", "MongoDB", "Databases"),
   ("redis", "Redis", "Databases"),
   ("elasticsearch", "Elasticsearch", "Databases / Search"),
   ("kafka", "Apache Kafka", "Streaming"),
   ("pulsar", "Apache Pulsar", "Streaming"),
   ("rabbitmq", "RabbitMQ", "Messaging"),
   ("pytest", "pytest", "Testing"),
   ("unittest", "unittest", "Testing"),
   ("jest", "Jest", "Testing"),
   ("mocha", "Mocha", "Testing"),
   ("cypress", "Cypress", "Testing"),
   ("prometheus", "Prometheus", "Observability"),
   ("grafana", "Grafana", "Observability"),
   ("opentelemetry", "OpenTelemetry", "Observability"),
   ("jwt", "JWT Authentication", "Security"),
   ("oauth", "OAuth", "Security"),
   ("bcrypt", "bcrypt", "Security"),
   ("tkinter", "Tkinter", "GUI / Desktop"),
   ("pyqt5", "PyQt5", "GUI / Desktop"),
   ("pyqt", "PyQt", "GUI / Desktop"),
   ("pyside2", "PySide2", "GUI / Desktop"),
   ("pyside6", "PySide6", "GUI / Desktop"),
   ("wx", "wxPython", "GUI / Desktop"),
   ("kivy", "Kivy", "GUI / Desktop")]

/-- KEYWORD_MAP from repo_skill_scanner.py: keyword, label, category. -/
def KEYWORD_MAP : List (String × String × String) :=
  [(".github/workflows", "GitHub Actions (CI/CD)", "CI/CD"),
   ("gitlab-ci", "GitLab CI", "CI/CD"),
   ("jenkins", "Jenkins", "CI/CD"),
   ("circleci", "CircleCI", "CI/CD"),
   ("azure-pipelines", "Azure Pipelines", "CI/CD"),
   ("terraform", "Terraform", "Cloud / IaC"),
   ("cloudformation", "AWS CloudFormation", "Cloud / IaC"),
   ("pulumi", "Pulumi", "Cloud / IaC"),
   ("kubernetes", "Kubernetes", "Containers / Orchestration"),
   ("k8s", "Kubernetes", "Containers / Orchestration"),
   ("helm", "Helm", "Containers / Orchestration"),
   ("cuda", "CUDA / NVIDIA (GPU)", "Performance / GPU"),
   ("nvidia", "NVIDIA / CUDA (GPU)", "Performance / GPU"),
   ("openmp", "OpenMP", "Performance"),
   ("mpi", "MPI", "Performance"),
   ("spark", "Apache Spark", "Data Engineering"),
   ("hadoop", "Hadoop", "Data Engineering"),
   ("airflow", "Apache Airflow", "Data Engineering"),
   ("dbt", "dbt", "Data Engineering"),
   ("oauth", "OAuth", "Security"),
   ("openid", "OpenID Connect", "Security"),
   ("saml", "SAML", "Security"),
   ("tkinter", "Tkinter", "GUI / Desktop"),
   ("pyqt5", "PyQt5", "GUI / Desktop"),
   ("pyside", "PySide", "GUI / Desktop"),
   ("wxpython", "wxPython", "GUI / Desktop"),
   ("kivy", "Kivy", "GUI / Desktop")]

/-- MANIFEST_FILES from repo_skill_scanner.py. -/
def MANIFEST_FILES : List String :=
  ["requirements.txt", "requirements-dev.txt",
   "environment.yml", "environment.yaml",
   "pyproject.toml", "setup.py", "setup.cfg", "poetry.lock",
   "package.json", "package-lock.json", "yarn.lock", "pnpm-lock.yaml",
   "pom.xml", "build.gradle", "build.gradle.kts", "settings.gradle",
   "go.mod", "go.sum",
   "cargo.toml", "cargo.lock",
   "gemfile", "gemfile.lock",
   "csproj", "fsproj", "packages.config",
   "composer.json", "composer.lock",
   "podfile", "podfile.lock"]

/-- EXT_LANG_MAP from repo_skill_scanner.py. -/
def EXT_LANG_MAP : List (String × String) :=
  [(".py", "Python"), (".ipynb", "Jupyter Notebook"), (".java", "Java"),
   (".js", "JavaScript"), (".ts", "TypeScript"), (".jsx", "JavaScript (React)"),
   (".tsx", "TypeScript (React)"), (".c", "C"), (".h", "C/C++ Header"),
   (".cpp", "C++"), (".cc", "C++"), (".cxx", "C++"), (".rs", "Rust"),
   (".go", "Go"), (".swift", "Swift"), (".kt", "Kotlin"), (".m", "Objective-C"),
   (".mm", "Objective-C++"), (".scala", "Scala"), (".html", "HTML"),
   (".css", "CSS"), (".scss", "SCSS"), (".yaml", "YAML"), (".yml", "YAML"),
   (".json", "JSON"), (".toml", "TOML"), (".tf", "Terraform"),
   (".md", "Markdown"), (".sh", "Shell")]

/-- Language implied by an extension, if any. -/
def extLang (ext : String) : Option String :=
  (EXT_LANG_MAP.find? (fun p => p.1 == ext)).map (fun p => p.2)

/-- The loose manifest tokenizer: every maximal run of characters in the
class [A-Za-z0-9_.-] is a token (re.findall of that class). -/
def manifestTokChar (c : Char) : Bool :=
  c.isAlphanum || c == '_' || c == '-' || c == '.'

/-- re.findall of maximal [A-Za-z0-9_.-] runs over a char list: the first
argument accumulates the reversed current run. -/
def manifestTokensAux : List Char → List Char → List String
  | acc, [] => if acc.isEmpty then [] else [String.mk acc.reverse]
  | acc, c :: cs =>
      if manifestTokChar c then manifestTokensAux (c :: acc) cs
      else if acc.isEmpty then manifestTokensAux [] cs
      else String.mk acc.reverse :: manifestTokensAux [] cs

/-- Manifest tokenization of a (lowercased) manifest file content. -/
def manifestTokens (content_l : String) : List String :=
  manifestTokensAux [] content_l.data

/-- extract_imports_from_py: captures of IMPORT_RE_PY, keeping only the
leading dotted-path component, deduplicated (the Python code builds a set). -/
def extract_imports_from_py (content : String) : List String :=
  dedupStr ((regexFindAll IMPORT_RE_PY true content).map
    (fun m => String.mk (m.data.takeWhile (fun c => c != '.'))))

/-- normalize_js_pkg: keep a scoped package intact, otherwise the segment
before the first slash. -/
def normalize_js_pkg (name : String) : String :=
  if ['@'].isPrefixOf name.data then name
  else String.mk (name.data.takeWhile (fun c => c != '/'))

/-- extract_imports_from_js: normalized captures of the static-import and
require regexes, deduplicated (the Python code builds a set). -/
def extract_imports_from_js (content : String) : List String :=
  dedupStr ((regexFindAll JS_IMPORT_RE false content).map normalize_js_pkg
    ++ (regexFindAll JS_REQUIRE_RE false content).map normalize_js_pkg)

/-- extract_imports_from_java: captures of IMPORT_RE_JAVA, keeping the leading
dotted segment lower-cased, deduplicated (the Python code builds a set). -/
def extract_imports_from_java (content : String) : List String :=
  dedupStr ((regexFindAll IMPORT_RE_JAVA true content).map
    (fun m => strToLower (String.mk (m.data.takeWhile (fun c => c != '.')))))

/-- The C-family include tokens: captures of INCLUDE_RE_C with the file
extension stripped and lower-cased, in findall order (not deduplicated). -/
def cIncludeTokens (content : String) : List String :=
  (regexFindAll INCLUDE_RE_C true content).map
    (fun m => strToLower (String.mk (m.data.takeWhile (fun c => c != '.'))))

/-- map_token_to_skill from repo_skill_scanner.py: package-table entries match
by equality or by key followed by a -, _ or . separator; keyword-table entries
match by substring containment; results in table order, package table first. -/
def map_token_to_skill (token : String) : List (String × String) :=
  let tl := strToLower token
  PACKAGE_KEYWORD_MAP.filterMap
    (fun e =>
      if tl == e.1 || (e.1.data ++ ['-']).isPrefixOf tl.data
          || (e.1.data ++ ['_']).isPrefixOf tl.data
          || (e.1.data ++ ['.']).isPrefixOf tl.data then
        some (e.2.1, e.2.2)
      else none)
  ++ KEYWORD_MAP.filterMap
    (fun e =>
      if isSubstrList e.1.data tl.data then some (e.2.1, e.2.2) else none)

/-- One file of a repository working copy, as yielded by the os.walk
traversal after the version-control directory exclusion: its relative path
(forward-slash separated, original case) and its content, none standing for
a file whose read raises. -/
structure SFile where
  rel : String
  content : Option String

/-- Outcome of the git clone subprocess for one repository: the working copy
files on success, the error string of the CalledProcessError on failure. -/
inductive CloneOutcome where
  | ok (files : List SFile)
  | fail (msg : String)

/-- The Repository Scan Record dictionary built by scan_repo. -/
structure ScanResult where
  repo_url : String
  repo_name : String
  cloned : Bool
  errors : List String
  languages : List String
  packages_found : List (String × List String)
  imports_found : List String
  manifest_tokens : List String
  file_extensions : List String
  file_paths : List String
  candidate_skills_by_category : List (String × List String)
  accepted_skills_by_category : List (String × List String)
  possible_skills_by_category : List (String × List String)
  evidence : List (String × List String)
  files_scanned : Nat

/-- The record as initialized at the top of scan_repo. -/
def initResult (repo_url : String) : ScanResult :=
  { repo_url := repo_url
    repo_name := repoNameOf repo_url
    cloned := false
    errors := []
    languages := []
    packages_found := []
    imports_found := []
    manifest_tokens := []
    file_extensions := []
    file_paths := []
    candidate_skills_by_category := []
    accepted_skills_by_category := []
    possible_skills_by_category := []
    evidence := []
    files_scanned := 0 }

/-- The body of scan_repo's per-file loop. -/
def scanFile (st : ScanResult) (f : SFile) : ScanResult :=
  let rel := f.rel
  let rel_l := strToLower (replaceAll rel "\\" "/")
  let filename := fileName rel
  let ext := strToLower (pathSuffix filename)
  let st := { st with
    files_scanned := st.files_scanned + 1
    file_paths := st.file_paths ++ [rel_l] }
  let st :=
    if ext ≠ "" then
      { st with
        file_extensions := insertStr st.file_extensions ext
        languages :=
          match extLang ext with
          | some lang => insertStr st.languages lang
          | none => st.languages }
    else st
  let content := safe_read f.content
  let content_l := strToLower content
  let st :=
    if MANIFEST_FILES.contains (strToLower filename) then
      let st := (manifestTokens content_l).foldl
        (fun s tk =>
          { s with
            manifest_tokens := insertStr s.manifest_tokens tk
            packages_found := addPath s.packages_found tk rel }) st
      { st with evidence := addPath st.evidence "manifests" rel }
    else st
  let st :=
    if ext == ".py" then
      (extract_imports_from_py content).foldl
        (fun s pkg =>
          { s with
            imports_found := insertStr s.imports_found pkg
            packages_found := addPath s.packages_found pkg rel }) st
    else st
  let st :=
    if ext == ".js" || ext == ".ts" || ext == ".jsx" || ext == ".tsx" then
      (extract_imports_from_js content).foldl
        (fun s pkg =>
          { s with
            imports_found := insertStr s.imports_found pkg
            packages_found := addPath s.packages_found pkg rel }) st
    else st
  let st :=
    if ext == ".java" then
      (extract_imports_from_java content).foldl
        (fun s pkg =>
          { s with
            imports_found := insertStr s.imports_found pkg
            packages_found := addPath s.packages_found pkg rel }) st
    else st
  let st :=
    if ext == ".c" || ext == ".h" || ext == ".cpp" || ext == ".cc" || ext == ".cxx" then
      (cIncludeTokens content).foldl
        (fun s tok => { s with packages_found := addPath s.packages_found tok rel }) st
    else st
  let st := KEYWORD_MAP.foldl
    (fun s e =>
      if keyword_present e.1 content_l || keyword_present e.1 rel_l then
        { s with
          packages_found := addPath s.packages_found e.1 rel
          evidence := addPath s.evidence e.2.1 rel }
      else s) st
  let st := PACKAGE_KEYWORD_MAP.foldl
    (fun s e =>
      if keyword_present e.1 content_l || keyword_present e.1 rel_l then
        { s with
          packages_found := addPath s.packages_found e.1 rel
          evidence := addPath s.evidence e.2.1 rel }
      else s) st
  st

/-- The record of scan_repo after a successful clone and the full file
traversal, before classification. -/
def scanState (repo_url : String) (files : List SFile) : ScanResult :=
  files.foldl scanFile { initResult repo_url with cloned := true }

/-- The token universe: lower-cased packages_found keys, imports and manifest
tokens (a Python set union; deduplicated, first occurrences kept). -/
def allTokensOf (st : ScanResult) : List String :=
  dedupStr (st.packages_found.map (fun p => strToLower p.1)
    ++ st.imports_found.map strToLower
    ++ st.manifest_tokens.map strToLower)

/-- The promotion test of scan_repo's classifier: the token appears among the
lower-cased imports, or among the lower-cased manifest tokens, or its
provenance path list has at least two distinct entries. -/
def tokenSeen (st : ScanResult) (t : String) : Bool :=
  (st.imports_found.map strToLower).contains t
    || (st.manifest_tokens.map strToLower).contains t
    || decide (2 ≤ (dedupStr (lookupD st.packages_found t)).length)

/-- candidate_skills: every skill any token maps to, keyed by category. -/
def candidateSkillsOf (tokens : List String) : List (String × List String) :=
  tokens.foldl
    (fun m t => (map_token_to_skill t).foldl (fun m2 lc => tierAdd m2 lc.2 lc.1) m)
    []

/-- candidate_mappings: for each token, setdefault keeps only the first skill
the token maps to. -/
def buildMappings (tokens : List String) : List (String × String × String) :=
  tokens.foldl
    (fun m t => (map_token_to_skill t).foldl (fun m2 lc => insertIfAbsent m2 t lc) m)
    []

/-- The accepted / possible split over candidate_mappings. -/
def splitTiers (seen : String → Bool) (mappings : List (String × String × String)) :
    List (String × List String) × List (String × List String) :=
  mappings.foldl
    (fun acc e =>
      if seen e.1 then (tierAdd acc.1 e.2.2 e.2.1, acc.2)
      else (acc.1, tierAdd acc.2 e.2.2 e.2.1))
    ([], [])

/-- The tail of scan_repo: evidence deduplication, classification into the
three tiers, and the sorted serial forms of the set-valued fields. -/
def finalizeScan (st : ScanResult) : ScanResult :=
  let st := { st with evidence := st.evidence.map (fun p => (p.1, sortedDedup p.2)) }
  let tokens := allTokensOf st
  let cand := candidateSkillsOf tokens
  let tiers := splitTiers (tokenSeen st) (buildMappings tokens)
  { st with
    candidate_skills_by_category := cand.map (fun p => (p.1, sortStrList p.2))
    accepted_skills_by_category := tiers.1.map (fun p => (p.1, sortStrList p.2))
    possible_skills_by_category := tiers.2.map (fun p => (p.1, sortStrList p.2))
    languages := sortStrList st.languages
    packages_found := st.packages_found.map (fun p => (p.1, sortedDedup p.2))
    imports_found := sortStrList st.imports_found
    manifest_tokens := sortStrList st.manifest_tokens }

/-- scan_repo from repo_skill_scanner.py: on clone failure the error string
is recorded and the initial record returned at once; on success the clone
flag is set, every file is visited, and the record is classified. -/
def scan_repo (repo_url : String) (outcome : CloneOutcome) : ScanResult :=
  match outcome with
  | .fail msg => { initResult repo_url with errors := [msg] }
  | .ok files => finalizeScan (scanState repo_url files)

/-- aggregate_results from repo_skill_scanner.py: union of every record's
accepted tier, category by category, values sorted. -/
def aggregate_results (repo_results : List ScanResult) : List (String × List String) :=
  (repo_results.foldl
    (fun agg r =>
      r.accepted_skills_by_category.foldl
        (fun a p => p.2.foldl (fun a2 s => tierAdd a2 p.1 s) a) agg)
    []).map (fun p => (p.1, sortStrList p.2))

/-- generate_resume_bullets from repo_skill_scanner.py. -/
def generate_resume_bullets (agg : List (String × List String)) : List String :=
  agg.map (fun p => p.1 ++ ": " ++ String.intercalate ", " p.2 ++ ".")

/-- One line of the input repository list together with the clone outcome its
scan will see. -/
structure RepoInput where
  url : String
  outcome : CloneOutcome

/-- The scanning loop of main: one scan_repo record appended per input
repository, in order. -/
def runScans (inputs : List RepoInput) : List ScanResult :=
  inputs.map (fun i => scan_repo i.url i.outcome)

/-- The externally visible steps of main, in order. -/
inductive RunEvent where
  | usageExit
  | createWorkspace
  | scanned (url : String)
  | wroteOutput
  | removeWorkspace
deriving DecidableEq

/-- The event trace of main: fewer than three argv entries print the usage
message and exit before anything else; otherwise the scratch workspace is
created, every repository is scanned, the output is written when the body
succeeds (bodyOk), and the finally clause removes the workspace whether the
body succeeded or raised. -/
def mainTrace (argv : List String) (inputs : List RepoInput) (bodyOk : Bool) :
    List RunEvent :=
  if argv.length < 3 then [RunEvent.usageExit]
  else
    RunEvent.createWorkspace ::
      (inputs.map (fun i => RunEvent.scanned i.url)
        ++ (if bodyOk then [RunEvent.wroteOutput] else [])
        ++ [RunEvent.removeWorkspace])

/-- FRAMEWORK_CATEGORIES from report_generator.py. -/
def FRAMEWORK_CATEGORIES : List String :=
  ["ML/AI", "Web & APIs", "Frontend", "Data & Analysis", "Data & Big Data",
   "Frameworks", "Libraries"]

/-- DEVTOOL_CATEGORIES from report_generator.py. -/
def DEVTOOL_CATEGORIES : List String :=
  ["Dev Tools", "CI/CD", "Build & Packaging", "Containers & Orchestration",
   "Cloud", "Testing", "Security / Auth", "Databases", "Messaging / Streaming",
   "Performance / GPU", "Serialization / RPC", "Other"]

/-- collect_skills_by_categories from report_generator.py: union of the label
sets of the categories that belong to the given category set. -/
def collect_skills_by_categories (skill_map : List (String × List String))
    (categories : List String) : List String :=
  skill_map.foldl
    (fun s p => if categories.contains p.1 then p.2.foldl insertStr s else s)
    []

/-- Scanner categories named in claim C10 that appear in neither report set. -/
def scannerOnlyCats : List String :=
  ["Containers / Orchestration", "Streaming", "Messaging", "Security",
   "Observability", "Cloud / IaC"]

/-- Spec-side reading of substring containment: the key occurs somewhere in
the text. -/
def substrOccurs (key text : String) : Prop :=
  ∃ a b : List Char, text.data = a ++ key.data ++ b

/-- Spec-side reading of a whole-word (word-boundary) match: the key occurs
somewhere in the text with a word boundary on each side (text edges count as
non-word). -/
def wordBoundaryOccurs (key text : String) : Prop :=
  ∃ a b : List Char,
    text.data = a ++ key.data ++ b
      ∧ boundaryOk a.getLast? key.data.head? = true
      ∧ boundaryOk key.data.getLast? b.head? = true

theorem contains_iff_mem {s : List String} {y : String} :
    s.contains y = true ↔ y ∈ s := by
  simp [List.contains_eq_any_beq]

theorem mem_insertStr {s : List String} {x y : String} :
    x ∈ insertStr s y ↔ x ∈ s ∨ x = y := by
  unfold insertStr
  split
  · rename_i h
    rw [contains_iff_mem] at h
    constructor
    · exact Or.inl
    · rintro (hx | rfl)
      · exact hx
      · exact h
  · simp

theorem nodup_insertStr {s : List String} {y : String} (h : s.Nodup) :
    (insertStr s y).Nodup := by
  unfold insertStr
  split
  · exact h
  · rename_i hc
    have : y ∉ s := fun hm => hc (contains_iff_mem.mpr hm)
    simp [List.nodup_append, h, this]

theorem mem_foldl_insertStr {l : List String} :
    ∀ {s x}, x ∈ l.foldl insertStr s ↔ x ∈ s ∨ x ∈ l := by
  induction l with
  | nil => simp
  | cons a as ih =>
      intro s x
      simp only [List.foldl_cons, ih, mem_insertStr, List.mem_cons]
      tauto

theorem nodup_foldl_insertStr {l : List String} :
    ∀ {s}, s.Nodup → (l.foldl insertStr s).Nodup := by
  induction l with
  | nil => simp
  | cons a as ih =>
      intro s hs
      exact ih (nodup_insertStr hs)

theorem mem_dedupStr {l : List String} {x : String} :
    x ∈ dedupStr l ↔ x ∈ l := by
  unfold dedupStr
  simp [mem_foldl_insertStr]

theorem nodup_dedupStr {l : List String} : (dedupStr l).Nodup :=
  nodup_foldl_insertStr List.nodup_nil

theorem mem_insertSorted {l : List String} {x y : String} :
    x ∈ insertSorted y l ↔ x = y ∨ x ∈ l := by
  induction l with
  | nil => simp [insertSorted]
  | cons a as ih =>
      unfold insertSorted
      split
      · simp
      · simp only [List.mem_cons, ih]
        tauto

theorem mem_sortStrList {l : List String} {x : String} :
    x ∈ sortStrList l ↔ x ∈ l := by
  induction l with
  | nil => simp [sortStrList]
  | cons a as ih =>
      simp only [sortStrList, List.foldr_cons] at *
      rw [mem_insertSorted, ih, List.mem_cons]

theorem mem_sortedDedup {l : List String} {x : String} :
    x ∈ sortedDedup l ↔ x ∈ l := by
  unfold sortedDedup
  rw [mem_sortStrList, mem_dedupStr]

theorem lookupD_tierAdd {m : List (String × List String)} {cat lab c : String} :
    lookupD (tierAdd m cat lab) c =
      if c = cat then insertStr (lookupD m cat) lab else lookupD m c := by
  induction m with
  | nil =>
      by_cases h : c = cat
      · subst h
        simp [tierAdd, lookupD, insertStr]
      · show lookupD [(cat, [lab])] c = _
        simp only [lookupD]
        rw [if_neg (fun hh => h hh.symm), if_neg h]
  | cons p rest ih =>
      obtain ⟨k, v⟩ := p
      by_cases hk : k = cat
      · subst hk
        simp only [tierAdd, if_pos rfl]
        by_cases hc : c = k
        · subst hc
          simp [lookupD]
        · simp only [lookupD]
          rw [if_neg (fun hh => hc hh.symm), if_neg hc, if_neg (fun hh => hc hh.symm)]
      · simp only [tierAdd, if_neg hk]
        by_cases hc : c = cat
        · subst hc
          have hkc : ¬k = c := hk
          simp [lookupD, ih, hkc]
        · simp [lookupD, ih, hc, hk]

theorem mem_lookupD_tierAdd {m : List (String × List String)} {cat lab c l : String} :
    l ∈ lookupD (tierAdd m cat lab) c ↔ l ∈ lookupD m c ∨ (c = cat ∧ l = lab) := by
  rw [lookupD_tierAdd]
  by_cases h : c = cat
  · subst h
    simp [mem_insertStr]
  · simp [h]

theorem lookupD_map_sort {m : List (String × List String)} {c : String} :
    lookupD (m.map (fun p => (p.1, sortStrList p.2))) c = sortStrList (lookupD m c) := by
  induction m with
  | nil => simp [lookupD, sortStrList]
  | cons p rest ih =>
      obtain ⟨k, v⟩ := p
      by_cases hk : k = c
      · simp [lookupD, hk]
      · simp [lookupD, hk, ih]

theorem mem_lookupD_map_sort {m : List (String × List String)} {c l : String} :
    l ∈ lookupD (m.map (fun p => (p.1, sortStrList p.2))) c ↔ l ∈ lookupD m c := by
  rw [lookupD_map_sort, mem_sortStrList]

theorem mem_splitTiers_fst {seen : String → Bool} :
    ∀ {ms : List (String × String × String)}
      {A P : List (String × List String)} {l c : String},
      (l ∈ lookupD (ms.foldl
          (fun acc e =>
            if seen e.1 then (tierAdd acc.1 e.2.2 e.2.1, acc.2)
            else (acc.1, tierAdd acc.2 e.2.2 e.2.1)) (A, P)).1 c
        ↔ l ∈ lookupD A c ∨ ∃ e ∈ ms, seen e.1 = true ∧ e.2.1 = l ∧ e.2.2 = c) := by
  intro ms
  induction ms with
  | nil => simp
  | cons e rest ih =>
      intro A P l c
      simp only [List.foldl_cons]
      by_cases hs : seen e.1
      · rw [if_pos hs]
        rw [ih, mem_lookupD_tierAdd]
        constructor
        · rintro ((h | ⟨h1, h2⟩) | ⟨e2, he2, h3⟩)
          · exact Or.inl h
          · exact Or.inr ⟨e, List.mem_cons_self e rest, hs, h2.symm, h1.symm⟩
          · exact Or.inr ⟨e2, List.mem_cons_of_mem e he2, h3⟩
        · rintro (h | ⟨e2, he2, h1, h2, h3⟩)
          · exact Or.inl (Or.inl h)
          · rcases List.mem_cons.mp he2 with rfl | hmem
            · exact Or.inl (Or.inr ⟨h3.symm, h2.symm⟩)
            · exact Or.inr ⟨e2, hmem, h1, h2, h3⟩
      · rw [if_neg hs]
        rw [ih]
        constructor
        · rintro (h | ⟨e2, he2, h3⟩)
          · exact Or.inl h
          · exact Or.inr ⟨e2, List.mem_cons_of_mem e he2, h3⟩
        · rintro (h | ⟨e2, he2, h1, h2, h3⟩)
          · exact Or.inl h
          · rcases List.mem_cons.mp he2 with rfl | hmem
            · exact absurd h1 (by simpa using hs)
            · exact Or.inr ⟨e2, hmem, h1, h2, h3⟩

theorem mem_splitTiers_snd {seen : String → Bool} :
    ∀ {ms : List (String × String × String)}
      {A P : List (String × List String)} {l c : String},
      (l ∈ lookupD (ms.foldl
          (fun acc e =>
            if seen e.1 then (tierAdd acc.1 e.2.2 e.2.1, acc.2)
            else (acc.1, tierAdd acc.2 e.2.2 e.2.1)) (A, P)).2 c
        ↔ l ∈ lookupD P c ∨ ∃ e ∈ ms, seen e.1 = false ∧ e.2.1 = l ∧ e.2.2 = c) := by
  intro ms
  induction ms with
  | nil => simp
  | cons e rest ih =>
      intro A P l c
      simp only [List.foldl_cons]
      by_cases hs : seen e.1
      · rw [if_pos hs]
        rw [ih]
        constructor
        · rintro (h | ⟨e2, he2, h3⟩)
          · exact Or.inl h
          · exact Or.inr ⟨e2, List.mem_cons_of_mem e he2, h3⟩
        · rintro (h | ⟨e2, he2, h1, h2, h3⟩)
          · exact Or.inl h
          · rcases List.mem_cons.mp he2 with rfl | hmem
            · rw [hs] at h1
              exact absurd h1 (by simp)
            · exact Or.inr ⟨e2, hmem, h1, h2, h3⟩
      · rw [if_neg hs]
        rw [ih, mem_lookupD_tierAdd]
        constructor
        · rintro ((h | ⟨h1, h2⟩) | ⟨e2, he2, h3⟩)
          · exact Or.inl h
          · exact Or.inr ⟨e, List.mem_cons_self e rest,
              by simpa using hs, h2.symm, h1.symm⟩
          · exact Or.inr ⟨e2, List.mem_cons_of_mem e he2, h3⟩
        · rintro (h | ⟨e2, he2, h1, h2, h3⟩)
          · exact Or.inl (Or.inl h)
          · rcases List.mem_cons.mp he2 with rfl | hmem
            · exact Or.inl (Or.inr ⟨h3.symm, h2.symm⟩)
            · exact Or.inr ⟨e2, hmem, h1, h2, h3⟩

theorem mem_splitTiers_accepted {seen : String → Bool}
    {ms : List (String × String × String)} {l c : String} :
    l ∈ lookupD (splitTiers seen ms).1 c
      ↔ ∃ e ∈ ms, seen e.1 = true ∧ e.2.1 = l ∧ e.2.2 = c := by
  unfold splitTiers
  rw [mem_splitTiers_fst]
  simp [lookupD]

theorem mem_splitTiers_possible {seen : String → Bool}
    {ms : List (String × String × String)} {l c : String} :
    l ∈ lookupD (splitTiers seen ms).2 c
      ↔ ∃ e ∈ ms, seen e.1 = false ∧ e.2.1 = l ∧ e.2.2 = c := by
  unfold splitTiers
  rw [mem_splitTiers_snd]
  simp [lookupD]

theorem mem_tierAdd_skills {skills : List (String × String)} :
    ∀ {m : List (String × List String)} {l c : String},
      (l ∈ lookupD (skills.foldl (fun m2 lc => tierAdd m2 lc.2 lc.1) m) c
        ↔ l ∈ lookupD m c ∨ (l, c) ∈ skills) := by
  induction skills with
  | nil => simp
  | cons lc rest ih =>
      intro m l c
      simp only [List.foldl_cons]
      rw [ih, mem_lookupD_tierAdd]
      constructor
      · rintro ((h | ⟨h1, h2⟩) | h)
        · exact Or.inl h
        · subst h1; subst h2
          exact Or.inr (List.mem_cons_self lc rest)
        · exact Or.inr (List.mem_cons_of_mem lc h)
      · rintro (h | h)
        · exact Or.inl (Or.inl h)
        · rcases List.mem_cons.mp h with h2 | hmem
          · exact Or.inl (Or.inr (by rw [← h2]; exact ⟨rfl, rfl⟩))
          · exact Or.inr hmem

theorem mem_candidateSkillsOf {tokens : List String} :
    ∀ {m : List (String × List String)} {l c : String},
      (l ∈ lookupD (tokens.foldl
          (fun m t => (map_token_to_skill t).foldl (fun m2 lc => tierAdd m2 lc.2 lc.1) m) m) c
        ↔ l ∈ lookupD m c ∨ ∃ t ∈ tokens, (l, c) ∈ map_token_to_skill t) := by
  induction tokens with
  | nil => simp
  | cons t rest ih =>
      intro m l c
      simp only [List.foldl_cons]
      rw [ih, mem_tierAdd_skills]
      constructor
      · rintro ((h | h) | ⟨t2, ht2, h⟩)
        · exact Or.inl h
        · exact Or.inr ⟨t, List.mem_cons_self t rest, h⟩
        · exact Or.inr ⟨t2, List.mem_cons_of_mem t ht2, h⟩
      · rintro (h | ⟨t2, ht2, h⟩)
        · exact Or.inl (Or.inl h)
        · rcases List.mem_cons.mp ht2 with rfl | hmem
          · exact Or.inl (Or.inr h)
          · exact Or.inr ⟨t2, hmem, h⟩

theorem candidateSkillsOf_spec {tokens : List String} {l c : String} :
    l ∈ lookupD (candidateSkillsOf tokens) c
      ↔ ∃ t ∈ tokens, (l, c) ∈ map_token_to_skill t := by
  unfold candidateSkillsOf
  rw [mem_candidateSkillsOf]
  simp [lookupD]

theorem hasKey_append {m1 m2 : List (String × String × String)} {t : String} :
    hasKey (m1 ++ m2) t = (hasKey m1 t || hasKey m2 t) := by
  simp [hasKey, List.any_append]

theorem foldl_insertIfAbsent_same {t : String} :
    ∀ {skills : List (String × String)} {m : List (String × String × String)},
      skills.foldl (fun m2 lc => insertIfAbsent m2 t lc) m =
        if hasKey m t then m
        else match skills with
             | [] => m
             | lc :: _ => m ++ [(t, lc.1, lc.2)] := by
  intro skills
  induction skills with
  | nil =>
      intro m
      by_cases h : hasKey m t <;> simp [h]
  | cons lc rest ih =>
      intro m
      simp only [List.foldl_cons]
      by_cases h : hasKey m t
      · have e1 : insertIfAbsent m t lc = m := by
          simp [insertIfAbsent, h]
        rw [e1, ih]
        simp [h]
      · have e1 : insertIfAbsent m t lc = m ++ [(t, lc.1, lc.2)] := by
          simp [insertIfAbsent, h]
        have h2 : hasKey (m ++ [(t, lc.1, lc.2)]) t = true := by
          rw [hasKey_append]
          simp [hasKey]
        rw [e1, ih]
        simp [h, h2]

theorem buildMappings_gen :
    ∀ {tokens : List String} {m : List (String × String × String)},
      (∀ t ∈ tokens, hasKey m t = false) → tokens.Nodup →
      tokens.foldl
          (fun m t => (map_token_to_skill t).foldl (fun m2 lc => insertIfAbsent m2 t lc) m) m =
        m ++ tokens.filterMap
          (fun t => ((map_token_to_skill t).head?).map (fun lc => (t, lc.1, lc.2))) := by
  intro tokens
  induction tokens with
  | nil => simp
  | cons t rest ih =>
      intro m habs hnd
      have ht : hasKey m t = false := habs t (List.mem_cons_self t rest)
      have hndr : rest.Nodup := (List.nodup_cons.mp hnd).2
      have htr : t ∉ rest := (List.nodup_cons.mp hnd).1
      simp only [List.foldl_cons]
      rw [foldl_insertIfAbsent_same, ht]
      rw [if_neg (by simp : ¬(false = true))]
      cases hsk : map_token_to_skill t with
      | nil =>
          have habs2 : ∀ t2 ∈ rest, hasKey m t2 = false := by
            intro t2 h2
            exact habs t2 (List.mem_cons_of_mem t h2)
          rw [ih habs2 hndr]
          simp [List.filterMap_cons, hsk]
      | cons lc tl =>
          have habs2 : ∀ t2 ∈ rest, hasKey (m ++ [(t, lc.1, lc.2)]) t2 = false := by
            intro t2 h2
            rw [hasKey_append, habs t2 (List.mem_cons_of_mem t h2)]
            have hne : t ≠ t2 := fun he => htr (he ▸ h2)
            simp [hasKey, hne]
          rw [ih habs2 hndr]
          simp [List.filterMap_cons, hsk, List.append_assoc]

theorem mem_buildMappings {tokens : List String} (hnd : tokens.Nodup)
    {e : String × String × String} :
    e ∈ buildMappings tokens
      ↔ e.1 ∈ tokens ∧ (map_token_to_skill e.1).head? = some (e.2.1, e.2.2) := by
  unfold buildMappings
  rw [buildMappings_gen (by simp [hasKey]) hnd]
  simp only [List.nil_append, List.mem_filterMap]
  constructor
  · rintro ⟨t, ht, hf⟩
    cases hh : (map_token_to_skill t).head? with
    | none => rw [hh] at hf; simp at hf
    | some lc =>
        rw [hh] at hf
        simp only [Option.map_some'] at hf
        obtain rfl := Option.some.inj hf
        exact ⟨ht, by rw [hh]⟩
  · rintro ⟨h1, h2⟩
    refine ⟨e.1, h1, ?_⟩
    rw [h2]
    simp

theorem nodup_allTokensOf {st : ScanResult} : (allTokensOf st).Nodup :=
  nodup_dedupStr

theorem finalize_accepted {st : ScanResult} :
    (finalizeScan st).accepted_skills_by_category =
      (splitTiers (tokenSeen st) (buildMappings (allTokensOf st))).1.map
        (fun p => (p.1, sortStrList p.2)) := rfl

theorem finalize_possible {st : ScanResult} :
    (finalizeScan st).possible_skills_by_category =
      (splitTiers (tokenSeen st) (buildMappings (allTokensOf st))).2.map
        (fun p => (p.1, sortStrList p.2)) := rfl

theorem finalize_candidate {st : ScanResult} :
    (finalizeScan st).candidate_skills_by_category =
      (candidateSkillsOf (allTokensOf st)).map (fun p => (p.1, sortStrList p.2)) := rfl

theorem scan_repo_ok_eq {url : String} {files : List SFile} :
    scan_repo url (.ok files) = finalizeScan (scanState url files) := rfl

theorem scan_repo_accepted_iff {url : String} {files : List SFile} {l c : String} :
    l ∈ lookupD (scan_repo url (.ok files)).accepted_skills_by_category c
      ↔ ∃ t, t ∈ allTokensOf (scanState url files)
          ∧ (map_token_to_skill t).head? = some (l, c)
          ∧ tokenSeen (scanState url files) t = true := by
  rw [scan_repo_ok_eq, finalize_accepted, mem_lookupD_map_sort, mem_splitTiers_accepted]
  constructor
  · rintro ⟨e, he, hs, h1, h2⟩
    have hm := (mem_buildMappings nodup_allTokensOf).mp he
    exact ⟨e.1, hm.1, by rw [hm.2, h1, h2], hs⟩
  · rintro ⟨t, ht, hh, hs⟩
    exact ⟨(t, l, c), (mem_buildMappings nodup_allTokensOf).mpr ⟨ht, hh⟩, hs, rfl, rfl⟩

theorem scan_repo_possible_iff {url : String} {files : List SFile} {l c : String} :
    l ∈ lookupD (scan_repo url (.ok files)).possible_skills_by_category c
      ↔ ∃ t, t ∈ allTokensOf (scanState url files)
          ∧ (map_token_to_skill t).head? = some (l, c)
          ∧ tokenSeen (scanState url files) t = false := by
  rw [scan_repo_ok_eq, finalize_possible, mem_lookupD_map_sort, mem_splitTiers_possible]
  constructor
  · rintro ⟨e, he, hs, h1, h2⟩
    have hm := (mem_buildMappings nodup_allTokensOf).mp he
    exact ⟨e.1, hm.1, by rw [hm.2, h1, h2], hs⟩
  · rintro ⟨t, ht, hh, hs⟩
    exact ⟨(t, l, c), (mem_buildMappings nodup_allTokensOf).mpr ⟨ht, hh⟩, hs, rfl, rfl⟩

theorem scan_repo_candidate_iff {url : String} {files : List SFile} {l c : String} :
    l ∈ lookupD (scan_repo url (.ok files)).candidate_skills_by_category c
      ↔ ∃ t ∈ allTokensOf (scanState url files), (l, c) ∈ map_token_to_skill t := by
  rw [scan_repo_ok_eq, finalize_candidate, mem_lookupD_map_sort, candidateSkillsOf_spec]

theorem isSubstrList_iff {k : List Char} :
    ∀ {cs : List Char}, isSubstrList k cs = true ↔ ∃ a b, cs = a ++ k ++ b := by
  intro cs
  induction cs with
  | nil =>
      simp only [isSubstrList, List.isEmpty_iff]
      constructor
      · rintro rfl
        exact ⟨[], [], rfl⟩
      · rintro ⟨a, b, h⟩
        have h2 : a ++ k ++ b = [] := h.symm
        rw [List.append_eq_nil, List.append_eq_nil] at h2
        exact h2.1.2
  | cons c cs ih =>
      simp only [isSubstrList, Bool.or_eq_true, ih]
      constructor
      · rintro (hp | ⟨a, b, rfl⟩)
        · obtain ⟨t, ht⟩ := List.isPrefixOf_iff_prefix.mp hp
          exact ⟨[], t, by rw [← ht]; simp⟩
        · exact ⟨c :: a, b, by simp⟩
      · rintro ⟨a, b, h⟩
        cases a with
        | nil =>
            left
            rw [List.isPrefixOf_iff_prefix]
            exact ⟨b, by simp [h]⟩
        | cons a0 as =>
            right
            simp only [List.cons_append] at h
            injection h with h1 h2
            exact ⟨as, b, h2⟩

theorem getLast?_cons_or {a : List Char} {c : Char} {prev : Option Char} :
    ((c :: a).getLast?).or prev = (a.getLast?).or (some c) := by
  cases a with
  | nil => simp
  | cons x xs =>
      rw [List.getLast?_cons_cons]
      cases hx : (x :: xs).getLast? with
      | none =>
          rw [List.getLast?_eq_none_iff] at hx
          exact absurd hx (by simp)
      | some y => simp

theorem wbSearchAux_iff {k : List Char} (hk : k ≠ []) :
    ∀ {cs : List Char} {prev : Option Char},
      wbSearchAux k prev cs = true ↔
        ∃ a b, cs = a ++ k ++ b
          ∧ boundaryOk ((a.getLast?).or prev) k.head? = true
          ∧ boundaryOk k.getLast? b.head? = true := by
  intro cs
  induction cs with
  | nil =>
      intro prev
      simp only [wbSearchAux, wbMatchAt]
      constructor
      · intro h
        rw [Bool.and_eq_true, Bool.and_eq_true] at h
        have hp := h.1.1
        rw [List.isPrefixOf_iff_prefix] at hp
        obtain ⟨t, ht⟩ := hp
        exact absurd (List.append_eq_nil.mp ht).1 hk
      · rintro ⟨a, b, h, _, _⟩
        have h2 : a ++ k ++ b = [] := h.symm
        rw [List.append_eq_nil, List.append_eq_nil] at h2
        exact absurd h2.1.2 hk
  | cons c cs ih =>
      intro prev
      simp only [wbSearchAux, Bool.or_eq_true, ih]
      constructor
      · rintro (hm | ⟨a, b, rfl, h1, h2⟩)
        · rw [wbMatchAt, Bool.and_eq_true, Bool.and_eq_true] at hm
          obtain ⟨⟨hp, hb1⟩, hb2⟩ := hm
          rw [List.isPrefixOf_iff_prefix] at hp
          obtain ⟨t, ht⟩ := hp
          refine ⟨[], t, by rw [← ht]; simp, by simpa using hb1, ?_⟩
          rw [← ht] at hb2
          rwa [List.drop_left] at hb2
        · exact ⟨c :: a, b, by simp, by rwa [getLast?_cons_or], h2⟩
      · rintro ⟨a, b, h, h1, h2⟩
        cases a with
        | nil =>
            left
            rw [wbMatchAt, Bool.and_eq_true, Bool.and_eq_true]
            simp only [List.nil_append] at h
            refine ⟨⟨?_, by simpa using h1⟩, ?_⟩
            · rw [List.isPrefixOf_iff_prefix]
              exact ⟨b, h.symm⟩
            · rw [h, List.drop_left]
              exact h2
        | cons a0 as =>
            right
            simp only [List.cons_append] at h
            injection h with hc hrest
            subst hc
            exact ⟨as, b, hrest, by rwa [getLast?_cons_or] at h1, h2⟩

theorem mem_tierAdd_fixedCat {cat0 : String} {skills : List String} :
    ∀ {a : List (String × List String)} {l c : String},
      (l ∈ lookupD (skills.foldl (fun a2 s => tierAdd a2 cat0 s) a) c
        ↔ l ∈ lookupD a c ∨ (c = cat0 ∧ l ∈ skills)) := by
  induction skills with
  | nil => simp
  | cons s rest ih =>
      intro a l c
      simp only [List.foldl_cons]
      rw [ih, mem_lookupD_tierAdd]
      constructor
      · rintro ((h | ⟨h1, h2⟩) | ⟨h1, h2⟩)
        · exact Or.inl h
        · exact Or.inr ⟨h1, h2 ▸ List.mem_cons_self s rest⟩
        · exact Or.inr ⟨h1, List.mem_cons_of_mem s h2⟩
      · rintro (h | ⟨h1, h2⟩)
        · exact Or.inl (Or.inl h)
        · rcases List.mem_cons.mp h2 with rfl | hmem
          · exact Or.inl (Or.inr ⟨h1, rfl⟩)
          · exact Or.inr ⟨h1, hmem⟩

theorem mem_aggEntries {entries : List (String × List String)} :
    ∀ {a : List (String × List String)} {l c : String},
      (l ∈ lookupD (entries.foldl
          (fun a p => p.2.foldl (fun a2 s => tierAdd a2 p.1 s) a) a) c
        ↔ l ∈ lookupD a c ∨ ∃ p ∈ entries, p.1 = c ∧ l ∈ p.2) := by
  induction entries with
  | nil => simp
  | cons p rest ih =>
      intro a l c
      simp only [List.foldl_cons]
      rw [ih, mem_tierAdd_fixedCat]
      constructor
      · rintro ((h | ⟨h1, h2⟩) | ⟨p2, hp2, h3⟩)
        · exact Or.inl h
        · exact Or.inr ⟨p, List.mem_cons_self p rest, h1.symm, h2⟩
        · exact Or.inr ⟨p2, List.mem_cons_of_mem p hp2, h3⟩
      · rintro (h | ⟨p2, hp2, h1, h2⟩)
        · exact Or.inl (Or.inl h)
        · rcases List.mem_cons.mp hp2 with rfl | hmem
          · exact Or.inl (Or.inr ⟨h1.symm, h2⟩)
          · exact Or.inr ⟨p2, hmem, h1, h2⟩

theorem mem_aggregate_results {rs : List ScanResult} {l c : String} :
    l ∈ lookupD (aggregate_results rs) c
      ↔ ∃ r ∈ rs, ∃ p ∈ r.accepted_skills_by_category, p.1 = c ∧ l ∈ p.2 := by
  unfold aggregate_results
  rw [mem_lookupD_map_sort]
  have main :
      ∀ (rs2 : List ScanResult) (a : List (String × List String)),
        l ∈ lookupD (rs2.foldl
            (fun agg r =>
              r.accepted_skills_by_category.foldl
                (fun a p => p.2.foldl (fun a2 s => tierAdd a2 p.1 s) a) agg) a) c
          ↔ l ∈ lookupD a c
            ∨ ∃ r ∈ rs2, ∃ p ∈ r.accepted_skills_by_category, p.1 = c ∧ l ∈ p.2 := by
    intro rs2
    induction rs2 with
    | nil => simp
    | cons r rest ih =>
        intro a
        simp only [List.foldl_cons]
        rw [ih, mem_aggEntries]
        constructor
        · rintro ((h | ⟨p, hp, h3⟩) | ⟨r2, hr2, h4⟩)
          · exact Or.inl h
          · exact Or.inr ⟨r, List.mem_cons_self r rest, p, hp, h3⟩
          · exact Or.inr ⟨r2, List.mem_cons_of_mem r hr2, h4⟩
        · rintro (h | ⟨r2, hr2, p, hp, h3⟩)
          · exact Or.inl (Or.inl h)
          · rcases List.mem_cons.mp hr2 with rfl | hmem
            · exact Or.inl (Or.inr ⟨p, hp, h3⟩)
            · exact Or.inr ⟨r2, hmem, p, hp, h3⟩
  rw [main rs []]
  simp [lookupD]

theorem mem_collect_skills {skill_map : List (String × List String)}
    {categories : List String} {l : String} :
    l ∈ collect_skills_by_categories skill_map categories
      ↔ ∃ p ∈ skill_map, categories.contains p.1 = true ∧ l ∈ p.2 := by
  unfold collect_skills_by_categories
  have main :
      ∀ (m : List (String × List String)) (s : List String),
        l ∈ m.foldl (fun s p => if categories.contains p.1 then p.2.foldl insertStr s else s) s
          ↔ l ∈ s ∨ ∃ p ∈ m, categories.contains p.1 = true ∧ l ∈ p.2 := by
    intro m
    induction m with
    | nil => simp
    | cons p rest ih =>
        intro s
        simp only [List.foldl_cons]
        by_cases hc : categories.contains p.1
        · rw [if_pos hc, ih, mem_foldl_insertStr]
          constructor
          · rintro ((h | h) | ⟨p2, hp2, h3⟩)
            · exact Or.inl h
            · exact Or.inr ⟨p, List.mem_cons_self p rest, hc, h⟩
            · exact Or.inr ⟨p2, List.mem_cons_of_mem p hp2, h3⟩
          · rintro (h | ⟨p2, hp2, h1, h2⟩)
            · exact Or.inl (Or.inl h)
            · rcases List.mem_cons.mp hp2 with rfl | hmem
              · exact Or.inl (Or.inr h2)
              · exact Or.inr ⟨p2, hmem, h1, h2⟩
        · rw [if_neg hc, ih]
          constructor
          · rintro (h | ⟨p2, hp2, h3⟩)
            · exact Or.inl h
            · exact Or.inr ⟨p2, List.mem_cons_of_mem p hp2, h3⟩
          · rintro (h | ⟨p2, hp2, h1, h2⟩)
            · exact Or.inl h
            · rcases List.mem_cons.mp hp2 with rfl | hmem
              · exact absurd h1 (by simpa using hc)
              · exact Or.inr ⟨p2, hmem, h1, h2⟩
  rw [main skill_map []]
  simp

theorem collect_skills_nil {skill_map : List (String × List String)}
    {categories : List String}
    (h : ∀ p ∈ skill_map, categories.contains p.1 = false) :
    collect_skills_by_categories skill_map categories = [] := by
  unfold collect_skills_by_categories
  have main :
      ∀ (m : List (String × List String)) (s : List String),
        (∀ p ∈ m, categories.contains p.1 = false) →
        m.foldl (fun s p => if categories.contains p.1 then p.2.foldl insertStr s else s) s = s := by
    intro m
    induction m with
    | nil => intro s _; rfl
    | cons p rest ih =>
        intro s hm
        simp only [List.foldl_cons]
        rw [if_neg (by rw [hm p (List.mem_cons_self p rest)]; simp), ih]
        intro p2 hp2
        exact hm p2 (List.mem_cons_of_mem p hp2)
  exact main skill_map [] h

theorem foldl_files_scanned {β : Type} {g : ScanResult → β → ScanResult}
    (hg : ∀ s a, (g s a).files_scanned = s.files_scanned) :
    ∀ (l : List β) (s : ScanResult), (l.foldl g s).files_scanned = s.files_scanned := by
  intro l
  induction l with
  | nil => intro s; rfl
  | cons a as ih =>
      intro s
      rw [List.foldl_cons, ih, hg]

theorem scanFile_files_scanned (st : ScanResult) (f : SFile) :
    (scanFile st f).files_scanned = st.files_scanned + 1 := by
  simp only [scanFile]
  iterate 16
    all_goals try dsimp only
    all_goals try (rw [foldl_files_scanned] <;> try (intro s a; first | rfl | (split <;> rfl)))
    all_goals try split

theorem scanState_files_scanned {url : String} :
    ∀ {files : List SFile}, (scanState url files).files_scanned = files.length := by
  have gen : ∀ (files : List SFile) (st : ScanResult),
      (files.foldl scanFile st).files_scanned = st.files_scanned + files.length := by
    intro files
    induction files with
    | nil => intro st; rfl
    | cons f fs ih =>
        intro st
        rw [List.foldl_cons, ih, scanFile_files_scanned, List.length_cons]
        omega
  intro files
  unfold scanState
  rw [gen]
  simp [initResult]

theorem finalize_files_scanned {st : ScanResult} :
    (finalizeScan st).files_scanned = st.files_scanned := rfl

/-- C1 (counterexample): for the repository whose only file is package.json
with content aws-sdk, the token aws-sdk maps first to AWS and then to
AWS SDK (Node.js); the setdefault in scan_repo keeps only the first mapping,
so AWS SDK (Node.js) is in the candidate tier of category Cloud but in
neither accepted nor possible, and AWS lands in both accepted (via the
corroborated token aws-sdk) and possible (via the single-path token aws) —
refuting candidate = accepted union possible, "never neither" and
"never both". -/
theorem c1_counterexample :
    "AWS SDK (Node.js)" ∈ lookupD (scan_repo "https://example.com/demo1.git"
        (.ok [⟨"package.json", some "aws-sdk"⟩])).candidate_skills_by_category "Cloud"
    ∧ "AWS SDK (Node.js)" ∉ lookupD (scan_repo "https://example.com/demo1.git"
        (.ok [⟨"package.json", some "aws-sdk"⟩])).accepted_skills_by_category "Cloud"
    ∧ "AWS SDK (Node.js)" ∉ lookupD (scan_repo "https://example.com/demo1.git"
        (.ok [⟨"package.json", some "aws-sdk"⟩])).possible_skills_by_category "Cloud"
    ∧ "AWS" ∈ lookupD (scan_repo "https://example.com/demo1.git"
        (.ok [⟨"package.json", some "aws-sdk"⟩])).accepted_skills_by_category "Cloud"
    ∧ "AWS" ∈ lookupD (scan_repo "https://example.com/demo1.git"
        (.ok [⟨"package.json", some "aws-sdk"⟩])).possible_skills_by_category "Cloud" := by
  decide

/-- C1 (amended): in every Repository Scan Record produced by scan_repo,
accepted and possible are subsets of candidate in every category; and for
each token of the token universe, only the FIRST skill the token maps to is
tiered — it lands in accepted when the token is corroborated and in possible
otherwise.  Later mappings of a multi-skill token stay candidate-only, and a
label can reach both tiers through different tokens, so candidate can be a
strict superset of accepted union possible. -/
theorem c1_tier_structure_amended (url : String) (files : List SFile) :
    (∀ c l : String,
        l ∈ lookupD (scan_repo url (.ok files)).accepted_skills_by_category c
            ∨ l ∈ lookupD (scan_repo url (.ok files)).possible_skills_by_category c →
          l ∈ lookupD (scan_repo url (.ok files)).candidate_skills_by_category c)
    ∧ (∀ t, t ∈ allTokensOf (scanState url files) →
        ∀ l c, (map_token_to_skill t).head? = some (l, c) →
          (tokenSeen (scanState url files) t = true →
              l ∈ lookupD (scan_repo url (.ok files)).accepted_skills_by_category c)
          ∧ (tokenSeen (scanState url files) t = false →
              l ∈ lookupD (scan_repo url (.ok files)).possible_skills_by_category c)) := by
  constructor
  · intro c l h
    rw [scan_repo_candidate_iff]
    rcases h with h | h
    · rw [scan_repo_accepted_iff] at h
      obtain ⟨t, ht, hh, _⟩ := h
      exact ⟨t, ht, List.mem_of_mem_head? (Option.mem_def.mpr hh)⟩
    · rw [scan_repo_possible_iff] at h
      obtain ⟨t, ht, hh, _⟩ := h
      exact ⟨t, ht, List.mem_of_mem_head? (Option.mem_def.mpr hh)⟩
  · intro t ht l c hh
    constructor
    · intro hs
      rw [scan_repo_accepted_iff]
      exact ⟨t, ht, hh, hs⟩
    · intro hs
      rw [scan_repo_possible_iff]
      exact ⟨t, ht, hh, hs⟩

/-- C1 (witness): the amended theorem applied to the one-file repository
requirements.txt containing pytest: the token pytest is in the universe,
its first mapping is (pytest, Testing), it is corroborated via the manifest,
so pytest is accepted under Testing. -/
theorem c1_tier_structure_amended_witness :
    "pytest" ∈ lookupD (scan_repo "https://example.com/demo-pytest.git"
        (.ok [⟨"requirements.txt", some "pytest\n"⟩])).accepted_skills_by_category "Testing" := by
  have h := (c1_tier_structure_amended "https://example.com/demo-pytest.git"
      [⟨"requirements.txt", some "pytest\n"⟩]).2 "pytest" (by decide)
      "pytest" "Testing" (by decide)
  exact h.1 (by decide)

/-- C2 (counterexample): in a repository with the single file main.c whose
content is one include of mpi.h, the token mpi is discovered by the C-family
header-inclusion extractor and maps to the skill (MPI, Performance); yet the
record's accepted tier is empty and MPI is only possible — header inclusion
feeds packages_found but not the import token set that clause (a) of the
promotion rule actually tests, so it does not promote. -/
theorem c2_counterexample :
    "mpi" ∈ cIncludeTokens "#include <mpi.h>"
    ∧ ("MPI", "Performance") ∈ map_token_to_skill "mpi"
    ∧ (scan_repo "https://example.com/demo-c.git"
        (.ok [⟨"main.c", some "#include <mpi.h>"⟩])).accepted_skills_by_category = []
    ∧ "MPI" ∈ lookupD (scan_repo "https://example.com/demo-c.git"
        (.ok [⟨"main.c", some "#include <mpi.h>"⟩])).possible_skills_by_category "Performance"
    ∧ (scan_repo "https://example.com/demo-c.git"
        (.ok [⟨"main.c", some "#include <mpi.h>"⟩])).imports_found = [] := by
  decide

/-- C2 (amended): a label is accepted for a category exactly when some token
of the token universe has that (label, category) as its FIRST taxonomy
mapping and satisfies one of: it was added to the import token set (only the
Python, ECMAScript and JVM extractors do that — C-family header inclusion
does not), it is a manifest token, or its provenance path list has at least
two distinct entries. -/
theorem c2_promotion_rule_amended (url : String) (files : List SFile) (l c : String) :
    l ∈ lookupD (scan_repo url (.ok files)).accepted_skills_by_category c
      ↔ ∃ t, t ∈ allTokensOf (scanState url files)
          ∧ (map_token_to_skill t).head? = some (l, c)
          ∧ (t ∈ (scanState url files).imports_found.map strToLower
             ∨ t ∈ (scanState url files).manifest_tokens.map strToLower
             ∨ 2 ≤ (dedupStr (lookupD (scanState url files).packages_found t)).length) := by
  rw [scan_repo_accepted_iff]
  constructor
  · rintro ⟨t, ht, hh, hs⟩
    refine ⟨t, ht, hh, ?_⟩
    simpa [tokenSeen, Bool.or_eq_true, contains_iff_mem, decide_eq_true_eq, or_assoc] using hs
  · rintro ⟨t, ht, hh, hs⟩
    refine ⟨t, ht, hh, ?_⟩
    simpa [tokenSeen, Bool.or_eq_true, contains_iff_mem, decide_eq_true_eq, or_assoc] using hs

/-- C3 (counterexample): in a repository with two text files each containing
aws-sdk, the token aws-sdk has two distinct provenance paths and maps to the
skill (AWS SDK (Node.js), Cloud); still that skill is not accepted (it is in
no tier but candidate), because only the token's first mapping (AWS, Cloud)
is tiered. -/
theorem c3_counterexample :
    ("AWS SDK (Node.js)", "Cloud") ∈ map_token_to_skill "aws-sdk"
    ∧ "aws-sdk" ∈ allTokensOf (scanState "https://example.com/demo-two.git"
        [⟨"a.txt", some "aws-sdk"⟩, ⟨"b.txt", some "aws-sdk"⟩])
    ∧ 2 ≤ (dedupStr (lookupD (scanState "https://example.com/demo-two.git"
        [⟨"a.txt", some "aws-sdk"⟩, ⟨"b.txt", some "aws-sdk"⟩]).packages_found "aws-sdk")).length
    ∧ "AWS SDK (Node.js)" ∉ lookupD (scan_repo "https://example.com/demo-two.git"
        (.ok [⟨"a.txt", some "aws-sdk"⟩, ⟨"b.txt", some "aws-sdk"⟩])).accepted_skills_by_category
        "Cloud"
    ∧ "AWS SDK (Node.js)" ∉ lookupD (scan_repo "https://example.com/demo-two.git"
        (.ok [⟨"a.txt", some "aws-sdk"⟩, ⟨"b.txt", some "aws-sdk"⟩])).possible_skills_by_category
        "Cloud" := by
  decide

/-- C3 (amended): a token of the token universe whose provenance path list
has at least two distinct file paths always has its FIRST mapped skill
accepted, however the token was discovered. -/
theorem c3_two_path_promotion_amended (url : String) (files : List SFile)
    (t l c : String)
    (h1 : t ∈ allTokensOf (scanState url files))
    (h2 : 2 ≤ (dedupStr (lookupD (scanState url files).packages_found t)).length)
    (h3 : (map_token_to_skill t).head? = some (l, c)) :
    l ∈ lookupD (scan_repo url (.ok files)).accepted_skills_by_category c := by
  rw [scan_repo_accepted_iff]
  refine ⟨t, h1, h3, ?_⟩
  simp [tokenSeen, h2]

/-- C3 (witness): the amended theorem applied to the two-file kubernetes
repository of the specification's scenario: the keyword token kubernetes has
two provenance paths, so Kubernetes is accepted under
Containers / Orchestration. -/
theorem c3_two_path_promotion_amended_witness :
    "Kubernetes" ∈ lookupD (scan_repo "https://example.com/demo-k8s.git"
        (.ok [⟨"a.md", some "kubernetes"⟩, ⟨"b.md", some "kubernetes"⟩])).accepted_skills_by_category
        "Containers / Orchestration" :=
  c3_two_path_promotion_amended "https://example.com/demo-k8s.git"
    [⟨"a.md", some "kubernetes"⟩, ⟨"b.md", some "kubernetes"⟩]
    "kubernetes" "Kubernetes" "Containers / Orchestration"
    (by decide) (by decide) (by decide)

/-- C4 (counterexample): in the repository whose only file is package.json
containing aws-sdk, the token aws-sdk is a manifest token and maps to the
skill (AWS SDK (Node.js), Cloud); still that skill is not accepted (nor even
possible), because only the token's first mapping (AWS, Cloud) is tiered. -/
theorem c4_counterexample :
    "aws-sdk" ∈ (scan_repo "https://example.com/demo-manifest.git"
        (.ok [⟨"package.json", some "aws-sdk"⟩])).manifest_tokens
    ∧ ("AWS SDK (Node.js)", "Cloud") ∈ map_token_to_skill "aws-sdk"
    ∧ "AWS SDK (Node.js)" ∉ lookupD (scan_repo "https://example.com/demo-manifest.git"
        (.ok [⟨"package.json", some "aws-sdk"⟩])).accepted_skills_by_category "Cloud"
    ∧ "AWS SDK (Node.js)" ∉ lookupD (scan_repo "https://example.com/demo-manifest.git"
        (.ok [⟨"package.json", some "aws-sdk"⟩])).possible_skills_by_category "Cloud" := by
  decide

/-- C4 (amended): a token discovered via manifest tokenization always has its
FIRST mapped skill accepted, even when it appears in only one file. -/
theorem c4_manifest_promotion_amended (url : String) (files : List SFile)
    (t l c : String)
    (h1 : t ∈ (scanState url files).manifest_tokens.map strToLower)
    (h2 : (map_token_to_skill t).head? = some (l, c)) :
    l ∈ lookupD (scan_repo url (.ok files)).accepted_skills_by_category c := by
  rw [scan_repo_accepted_iff]
  refine ⟨t, ?_, h2, ?_⟩
  · unfold allTokensOf
    rw [mem_dedupStr]
    exact List.mem_append.mpr (Or.inr h1)
  · have hc : ((scanState url files).manifest_tokens.map strToLower).contains t = true :=
      contains_iff_mem.mpr h1
    unfold tokenSeen
    rw [hc]
    simp

/-- C4 (witness): the amended theorem applied to the specification's own
scenario, a repository holding only requirements.txt with flask and requests:
the manifest token flask yields Flask accepted under Web & APIs. -/
theorem c4_manifest_promotion_amended_witness :
    "Flask" ∈ lookupD (scan_repo "https://example.com/demo-flask.git"
        (.ok [⟨"requirements.txt", some "flask\nrequests\n"⟩])).accepted_skills_by_category
        "Web & APIs" :=
  c4_manifest_promotion_amended "https://example.com/demo-flask.git"
    [⟨"requirements.txt", some "flask\nrequests\n"⟩]
    "flask" "Flask" "Web & APIs" (by decide) (by decide)

/-- C5: every label in the Aggregator's output under a category comes from
some record's accepted tier under that same category, and a label absent
from every record's accepted tier for that category never appears in the
aggregate (so possible/candidate tiers never leak into it). -/
theorem c5_aggregate_only_accepted (rs : List ScanResult) (cat l : String) :
    (l ∈ lookupD (aggregate_results rs) cat →
        ∃ r, r ∈ rs ∧ ∃ p, p ∈ r.accepted_skills_by_category ∧ p.1 = cat ∧ l ∈ p.2)
    ∧ ((∀ r ∈ rs, ∀ p ∈ r.accepted_skills_by_category, p.1 = cat → l ∉ p.2) →
        l ∉ lookupD (aggregate_results rs) cat) := by
  constructor
  · intro h
    obtain ⟨r, hr, p, hp, h1, h2⟩ := mem_aggregate_results.mp h
    exact ⟨r, hr, p, hp, h1, h2⟩
  · intro hnone h
    obtain ⟨r, hr, p, hp, h1, h2⟩ := mem_aggregate_results.mp h
    exact hnone r hr p hp h1 h2

/-- C5 (witness): aggregating the single flask record, the label Flask of the
aggregate's Web & APIs entry is traced back to that record's accepted tier. -/
theorem c5_aggregate_only_accepted_witness :
    ∃ r, r ∈ [scan_repo "https://example.com/demo-agg.git"
        (.ok [⟨"requirements.txt", some "flask\n"⟩])]
      ∧ ∃ p, p ∈ r.accepted_skills_by_category ∧ p.1 = "Web & APIs" ∧ "Flask" ∈ p.2 :=
  (c5_aggregate_only_accepted
      [scan_repo "https://example.com/demo-agg.git"
        (.ok [⟨"requirements.txt", some "flask\n"⟩])]
      "Web & APIs" "Flask").1 (by decide)

/-- C6: for every key of either taxonomy table and every text, the
keyword_present test of the scanner agrees with the declarative reading:
a key of length at most 4 matches exactly when it occurs somewhere in the
text with a word boundary on both sides, and a longer key matches exactly
when it occurs as a plain substring. -/
theorem c6_word_boundary_threshold (key : String) (lc : String × String)
    (hmem : (key, lc) ∈ PACKAGE_KEYWORD_MAP ++ KEYWORD_MAP) (text : String) :
    (key.length ≤ 4 → (keyword_present key text = true ↔ wordBoundaryOccurs key text))
    ∧ (4 < key.length → (keyword_present key text = true ↔ substrOccurs key text)) := by
  have hne : key.data ≠ [] := by
    have hall : (PACKAGE_KEYWORD_MAP ++ KEYWORD_MAP).all
        (fun e => decide (0 < e.1.length)) = true := by decide
    have h2 := List.all_eq_true.mp hall _ hmem
    rw [decide_eq_true_eq] at h2
    intro hd
    rw [show key.length = key.data.length from rfl, hd] at h2
    simp at h2
  constructor
  · intro hle
    rw [keyword_present, if_pos hle, wbSearchAux_iff hne]
    unfold wordBoundaryOccurs
    constructor
    · rintro ⟨a, b, h1, h2, h3⟩
      rw [Option.or_none] at h2
      exact ⟨a, b, h1, h2, h3⟩
    · rintro ⟨a, b, h1, h2, h3⟩
      refine ⟨a, b, h1, ?_, h3⟩
      rw [Option.or_none]
      exact h2
  · intro hgt
    rw [keyword_present, if_neg (by omega), isSubstrList_iff]
    exact Iff.rfl

/-- C6 (witness): the theorem instantiated at the 3-character key aws and the
text crawsx, where aws occurs only inside a longer word: keyword_present is
equivalent to a word-boundary occurrence there (and both sides are false). -/
theorem c6_word_boundary_threshold_witness :
    (("aws" : String).length ≤ 4 →
        (keyword_present "aws" "crawsx" = true ↔ wordBoundaryOccurs "aws" "crawsx"))
    ∧ (4 < ("aws" : String).length →
        (keyword_present "aws" "crawsx" = true ↔ substrOccurs "aws" "crawsx")) :=
  c6_word_boundary_threshold "aws" ("AWS", "Cloud") (by decide) "crawsx"

/-- C7: the scanning loop of main yields exactly one record per input
repository; a record whose clone failed carries the error string, the cloned
flag stays false, all three skill tiers stay empty and no file is counted,
while the remaining repositories are still scanned (the loop is a map over
all inputs). -/
theorem c7_clone_failure_isolated (inputs : List RepoInput) (url msg : String) :
    (runScans inputs).length = inputs.length
    ∧ (scan_repo url (.fail msg)).errors = [msg]
    ∧ (scan_repo url (.fail msg)).cloned = false
    ∧ (scan_repo url (.fail msg)).candidate_skills_by_category = []
    ∧ (scan_repo url (.fail msg)).accepted_skills_by_category = []
    ∧ (scan_repo url (.fail msg)).possible_skills_by_category = []
    ∧ (scan_repo url (.fail msg)).files_scanned = 0 := by
  refine ⟨?_, rfl, rfl, rfl, rfl, rfl, rfl⟩
  simp [runScans]

/-- C8: reading is total — an unreadable file (a read that raises) yields
empty content, and scanning a repository with such a file is identical to
scanning it with that file's content empty, so traversal continues past it;
moreover every file of the working copy is visited and counted exactly once,
whatever its content (the extractors are total functions of the text). -/
theorem c8_unreadable_file_total (url rel : String) (pre post : List SFile) :
    safe_read none = ""
    ∧ scan_repo url (.ok (pre ++ ⟨rel, none⟩ :: post))
        = scan_repo url (.ok (pre ++ ⟨rel, some ""⟩ :: post))
    ∧ ∀ files : List SFile, (scan_repo url (.ok files)).files_scanned = files.length := by
  refine ⟨rfl, ?_, ?_⟩
  · have hfile : ∀ st : ScanResult, scanFile st ⟨rel, none⟩ = scanFile st ⟨rel, some ""⟩ :=
      fun st => rfl
    rw [scan_repo_ok_eq, scan_repo_ok_eq]
    unfold scanState
    rw [List.foldl_append, List.foldl_append, List.foldl_cons, List.foldl_cons, hfile]
  · intro files
    rw [scan_repo_ok_eq, finalize_files_scanned, scanState_files_scanned]

/-- C9 (counterexample): called with only two argv entries (a missing output
argument), main prints the usage message and exits before the scratch
workspace even exists: its event trace is just the usage exit, and no
workspace removal happens on that path. -/
theorem c9_counterexample :
    RunEvent.usageExit ∈ mainTrace ["repo_skill_scanner.py", "repos.txt"] [] true
    ∧ RunEvent.removeWorkspace ∉ mainTrace ["repo_skill_scanner.py", "repos.txt"] [] true := by
  decide

/-- C9 (amended): on every run of main in which the scratch workspace is
created — that is, every run that passes the usage check — the finally
clause removes it, whether the body succeeded or raised and however many
scans failed; the fatal usage error instead exits before creation, so no
removal runs (and none is needed) on that path. -/
theorem c9_removal_after_creation_amended (argv : List String)
    (inputs : List RepoInput) (bodyOk : Bool)
    (h : RunEvent.createWorkspace ∈ mainTrace argv inputs bodyOk) :
    RunEvent.removeWorkspace ∈ mainTrace argv inputs bodyOk := by
  unfold mainTrace at h ⊢
  by_cases ha : argv.length < 3
  · rw [if_pos ha] at h
    simp at h
  · rw [if_neg ha]
    simp

/-- C9 (witness): with all three arguments present the trace does contain the
workspace removal, via the amended theorem. -/
theorem c9_removal_after_creation_amended_witness :
    RunEvent.removeWorkspace ∈
      mainTrace ["repo_skill_scanner.py", "repos.txt", "results.json"] [] true :=
  c9_removal_after_creation_amended ["repo_skill_scanner.py", "repos.txt", "results.json"] [] true
    (by decide)

/-- C10: everything collect_skills_by_categories returns comes from an entry
whose category belongs to the queried set; a skill map whose categories all
lie in the six scanner categories named by the claim therefore contributes
nothing to the report's confirmed Frameworks & Libraries or Development
tools sections; each of those six category names is really emitted by the
scanner's taxonomy and belongs to neither report set, and the report's
near-miss names (Containers & Orchestration, Security / Auth) are in the
dev-tool set while the scanner's spellings are not. -/
theorem c10_report_category_mismatch :
    (∀ (m : List (String × List String)) (cats : List String) (l : String),
        l ∈ collect_skills_by_categories m cats →
        ∃ p, p ∈ m ∧ cats.contains p.1 = true ∧ l ∈ p.2)
    ∧ (∀ m : List (String × List String),
        (∀ p ∈ m, p.1 ∈ scannerOnlyCats) →
        collect_skills_by_categories m FRAMEWORK_CATEGORIES = []
          ∧ collect_skills_by_categories m DEVTOOL_CATEGORIES = [])
    ∧ scannerOnlyCats.all
        (fun c0 => !(FRAMEWORK_CATEGORIES.contains c0) && !(DEVTOOL_CATEGORIES.contains c0)) = true
    ∧ scannerOnlyCats.all
        (fun c0 => (PACKAGE_KEYWORD_MAP ++ KEYWORD_MAP).any (fun e => e.2.2 == c0)) = true
    ∧ "Containers & Orchestration" ∈ DEVTOOL_CATEGORIES
    ∧ "Containers / Orchestration" ∉ DEVTOOL_CATEGORIES
    ∧ "Security / Auth" ∈ DEVTOOL_CATEGORIES
    ∧ "Security" ∉ DEVTOOL_CATEGORIES := by
  refine ⟨?_, ?_, by decide, by decide, by decide, by decide, by decide, by decide⟩
  · intro m cats l h
    obtain ⟨p, hp, h1, h2⟩ := mem_collect_skills.mp h
    exact ⟨p, hp, h1, h2⟩
  · intro m hm
    have hfr : ∀ x ∈ scannerOnlyCats, FRAMEWORK_CATEGORIES.contains x = false := by decide
    have hdev : ∀ x ∈ scannerOnlyCats, DEVTOOL_CATEGORIES.contains x = false := by decide
    exact ⟨collect_skills_nil (fun p hp => hfr p.1 (hm p hp)),
           collect_skills_nil (fun p hp => hdev p.1 (hm p hp))⟩

/-- C10 (witness): a dev-tool label is traced back to its entry, and a skill
map using only the scanner's spellings Containers / Orchestration and
Security yields empty confirmed sections. -/
theorem c10_report_category_mismatch_witness :
    (∃ p, p ∈ [("Testing", ["pytest"])]
        ∧ DEVTOOL_CATEGORIES.contains p.1 = true ∧ "pytest" ∈ p.2)
    ∧ (collect_skills_by_categories
          [("Containers / Orchestration", ["Kubernetes"]), ("Security", ["OAuth"])]
          FRAMEWORK_CATEGORIES = []
        ∧ collect_skills_by_categories
          [("Containers / Orchestration", ["Kubernetes"]), ("Security", ["OAuth"])]
          DEVTOOL_CATEGORIES = []) :=
  ⟨c10_report_category_mismatch.1 [("Testing", ["pytest"])] DEVTOOL_CATEGORIES "pytest" (by decide),
   c10_report_category_mismatch.2.1
     [("Containers / Orchestration", ["Kubernetes"]), ("Security", ["OAuth"])] (by decide)⟩
